import Mathlib

/-!
Shallow embedding of the NEOM-Data-Search pipeline, used to check the
natural-language specification against the code.

Sources embedded here:
- `scan_species_mentions.py`: the category/term configuration
  (`SEARCH_CATEGORIES`), the compiled word-boundary patterns
  (`CATEGORY_PATTERNS`), `find_matches_in_text`, `scan_file`, and the
  scan loop of `main`.
- `prepare_index.py`: `build_searchable_text` and the persisted-records
  construction of `main` (stripping `searchable_text`).
- `neom_search_v2/build_index.py`: `CATEGORIES`, its own
  `build_searchable_text`, and the index build of `main` (success-row
  filtering, record construction, filter options, embeddings).
- `search_service.py`: the `search` endpoint (category filters,
  file-type filter, include/exclude regexes, ranking, truncation).

Modelling conventions:
- Text is `List Char`; Python's Unicode-aware `str.lower`, `\w` and
  `\b` are modelled on the ASCII fragment (the configuration and all
  claims are ASCII).
- Python's `re` module, the sentence-embedding model and numpy are
  collaborators: regex compilation is an explicit engine parameter,
  embedding vectors are integer vectors (`List Int`, dot-product
  scoring), and `np.argsort(-sims)` is replaced by an executable argsort
  of the score sequence. numpy's default sort kind does not guarantee
  any tie order, so no theorem relies on the tie order of this stand-in.
- Fallible steps (regex compilation, file readers) return
  `Except`/`Option`; no exceptions.
-/

namespace NEOM

/-- Character-list strings, the working representation of Python `str`. -/
abbrev Str := List Char

/-- ASCII model of Python `str.lower` / `re.IGNORECASE` case folding, as an
explicit table over the upper-case letters. -/
def lowerChar (c : Char) : Char :=
  match c with
  | 'A' => 'a' | 'B' => 'b' | 'C' => 'c' | 'D' => 'd' | 'E' => 'e'
  | 'F' => 'f' | 'G' => 'g' | 'H' => 'h' | 'I' => 'i' | 'J' => 'j'
  | 'K' => 'k' | 'L' => 'l' | 'M' => 'm' | 'N' => 'n' | 'O' => 'o'
  | 'P' => 'p' | 'Q' => 'q' | 'R' => 'r' | 'S' => 's' | 'T' => 't'
  | 'U' => 'u' | 'V' => 'v' | 'W' => 'w' | 'X' => 'x' | 'Y' => 'y'
  | 'Z' => 'z'
  | c => c

/-- Lower-casing of a whole string. -/
def lowerStr (s : Str) : Str := s.map lowerChar

/-- ASCII model of the regex class `\w` (letters, digits, underscore). -/
def isWordChar (c : Char) : Bool := c.isAlphanum || c == '_'

/-- Whether position `i` of `s` holds a word character (out of range counts
as non-word, as at the ends of a string for `\b`). -/
def isWordAt (s : Str) (i : Nat) : Bool :=
  match s[i]? with
  | some c => isWordChar c
  | none => false

/-- Model of the regex word-boundary assertion `\b` at position `i`: the
word-ness of the character before `i` (non-word when `i = 0`) differs from
the word-ness at `i`. -/
def wordBoundaryAt (s : Str) (i : Nat) : Bool :=
  (i != 0 && isWordAt s (i - 1)) != isWordAt s i

/-- Python `str.split(sep)` for a one-character separator: always returns a
non-empty list and keeps empty fields. -/
def splitChar (sep : Char) : Str → List Str
  | [] => [[]]
  | c :: cs =>
    if c = sep then [] :: splitChar sep cs
    else
      match splitChar sep cs with
      | [] => [[c]]
      | h :: t => (c :: h) :: t

/-- Python `str.strip()` on the ASCII fragment: drop whitespace from both
ends. -/
def stripStr (s : Str) : Str :=
  ((s.dropWhile Char.isWhitespace).reverse.dropWhile Char.isWhitespace).reverse

/-- Join a list of strings with a separator, as Python `sep.join(parts)`. -/
def joinSep (sep : Str) : List Str → Str
  | [] => []
  | [p] => p
  | p :: ps => p ++ sep ++ joinSep sep ps

/-- Python string `<`: lexicographic comparison by code point, a proper
prefix being smaller. -/
def clLt : Str → Str → Bool
  | [], [] => false
  | [], _ :: _ => true
  | _ :: _, [] => false
  | a :: as, b :: bs =>
    if a.toNat < b.toNat then true
    else if b.toNat < a.toNat then false
    else clLt as bs

/-- Insertion step of a stable sort: `x` goes in front of the first element
it is strictly below, hence after all elements it ties with. -/
def insertLt (lt : α → α → Bool) (x : α) : List α → List α
  | [] => [x]
  | y :: ys => if lt x y then x :: y :: ys else y :: insertLt lt x ys

/-- Stable insertion sort by a strict comparison, processing the input left
to right (ties keep their original relative order, as Python `sorted` and a
stable argsort do). -/
def sortByLt (lt : α → α → Bool) (l : List α) : List α :=
  l.foldl (fun acc x => insertLt lt x acc) []

/-- Python `sorted` on a list of strings (code-point lexicographic). -/
def sortStrs (l : List Str) : List Str := sortByLt clLt l

end NEOM

namespace NEOM.Scan

/-- The category → term configuration `SEARCH_CATEGORIES` of
`scan_species_mentions.py`, transcribed verbatim. -/
def SEARCH_CATEGORIES : List (String × List String) := [
  ("marine_mammals", [
    "dugong", "dolphin", "whale", "manatee", "porpoise", "cetacean",
    "bottlenose", "spinner", "humpback", "brydes", "bryde", "minke", "orca",
    "indo-pacific", "pantropical", "rissos", "false killer"]),
  ("sharks_rays", [
    "shark", "ray", "manta", "stingray", "guitarfish", "sawfish", "hammerhead",
    "whale shark", "tiger shark", "reef shark", "blacktip", "whitetip",
    "eagle ray", "mobula", "leopard shark", "nurse shark", "silky shark",
    "thresher", "oceanic whitetip"]),
  ("reptiles", [
    "turtle", "hawksbill", "loggerhead", "green turtle", "leatherback",
    "olive ridley", "sea snake", "sea turtle"]),
  ("fish", [
    "grouper", "parrotfish", "snapper", "barracuda", "tuna", "trevally",
    "fusilier", "anthias", "clownfish", "moray", "napoleonfish", "napoleon",
    "bumphead", "sweetlips", "emperor", "rabbitfish", "surgeonfish",
    "wrasse", "damselfish", "butterflyfish", "angelfish", "goby", "blenny",
    "pufferfish", "triggerfish", "lionfish", "scorpionfish"]),
  ("birds", [
    "osprey", "falcon", "sooty falcon", "eagle", "tern", "gull", "heron",
    "cormorant", "pelican", "booby", "frigatebird", "flamingo", "plover",
    "sandpiper", "egret", "shearwater", "petrel", "tropicbird", "raptor",
    "sooty gull", "white-eyed gull", "crab plover", "reef heron"]),
  ("invertebrates_habitat", [
    "coral", "seagrass", "sea grass", "sponge", "urchin", "starfish",
    "sea cucumber", "octopus", "squid", "cuttlefish", "jellyfish",
    "crab", "lobster", "shrimp", "giant clam", "triton", "nudibranch",
    "anemone", "bryozoan", "hydroid", "tunicate", "mangrove", "algae"]),
  ("survey_types", [
    "survey", "transect", "quadrat", "monitoring", "assessment", "census",
    "sighting", "observation", "encounter", "stranding", "nesting",
    "tagging", "satellite tag", "acoustic", "photo-id", "photo id",
    "biopsy", "genetic", "sample", "capture", "recapture", "telemetry",
    "drone", "aerial", "boat survey", "dive survey", "snorkel",
    "BRUV", "baited remote", "camera trap", "ROV", "AUV",
    "benthic", "pelagic", "intertidal", "subtidal",
    "baseline", "impact", "EIA", "environmental impact"]),
  ("places", [
    "NEOM", "Sharma", "Gayal", "Sindalah", "Magna",
    "Aqaba", "Gulf of Aqaba", "Tiran", "Sanafir",
    "Red Sea", "Farasan", "Yanbu", "Jeddah", "Thuwal", "Rabigh",
    "Al Wajh", "Umluj", "Duba", "Haql", "Tabuk",
    "island", "reef", "lagoon", "bay", "coast", "offshore"]),
  ("data_types", [
    "GPS", "coordinate", "latitude", "longitude", "waypoint", "track",
    "depth", "temperature", "salinity", "chlorophyll", "turbidity",
    "abundance", "density", "biomass", "count", "frequency",
    "size", "length", "weight", "measurement",
    "behaviour", "behavior", "feeding", "breeding", "migration",
    "habitat", "substrate", "bathymetry", "geomorphology"]),
  ("conservation", [
    "protected", "MPA", "marine protected", "sanctuary", "reserve",
    "endangered", "threatened", "vulnerable", "IUCN", "CITES",
    "conservation", "restoration", "rehabilitation", "management",
    "impact", "disturbance", "pollution", "debris", "plastic",
    "bycatch", "fishery", "fishing", "boat strike", "collision"])]

/-- Whether the candidate word `w` matches at position `i` of `s`: the
case-folded slice of `s` at `i` equals the case-folded `w` and the regex
word-boundary assertion `\b` holds at both ends of the slice. -/
def matchCandAt (w s : Str) (i : Nat) : Bool :=
  (((s.drop i).take w.length).map NEOM.lowerChar == w.map NEOM.lowerChar)
    && NEOM.wordBoundaryAt s i && NEOM.wordBoundaryAt s (i + w.length)

/-- Whether the candidate word `w` matches with word boundaries anywhere in
`s` (the scan of `re.search` over every start position). -/
def candSearch (w s : Str) : Bool :=
  (List.range (s.length + 1)).any (fun i => matchCandAt w s i)

/-- Model of `re.search` with the compiled pattern
`r"\b" + re.escape(term) + r"s?\b"` under `re.IGNORECASE`
(`CATEGORY_PATTERNS[category][term]`): by the backtracking semantics of the
optional `s?` between the two boundary assertions, the pattern finds a match
exactly when the literal term or the term plus a trailing `s` occurs with
word boundaries on both sides. -/
def termSearch (t s : Str) : Bool :=
  candSearch t s || candSearch (t ++ ['s']) s

/-- Model of `find_matches_in_text`: for each category, the set of its terms
whose compiled pattern finds a match in `text` (empty everywhere for empty
input, as the `if not text` guard gives). -/
def find_matches_in_text (text : String) : List (String × List String) :=
  if text.data.isEmpty then SEARCH_CATEGORIES.map (fun p => (p.1, []))
  else SEARCH_CATEGORIES.map
    (fun p => (p.1, p.2.filter (fun t => termSearch t.data text.data)))

/-- Matched-term set of one category in a `find_matches_in_text` result. -/
def matchedTerms (res : List (String × List String)) (cat : String) :
    List String :=
  (res.lookup cat).getD []

/-- A scan target as produced by `get_files_to_scan`: path, reader type and
file name. -/
structure FileInfo where
  path : String
  name : String
  ftype : String

/-- One output row of the scan, `ScanRecord` of the spec: bookkeeping fields
plus one serialized field per category. -/
structure ScanRecord where
  file_path : String
  file_name : String
  file_type : String
  status : String
  error : String
  cats : List (String × String)

/-- Category field of a `ScanRecord`. -/
def ScanRecord.cat (r : ScanRecord) (c : String) : String :=
  (r.cats.lookup c).getD ""

/-- Whether a reader result signals failure: the code's sentinel test
`text and isinstance(text, str) and text.startswith("ERROR:")`
(`None` and the empty string are falsy and do not reach `startswith`). -/
def isErrorText : Option String → Bool
  | some s => "ERROR:".data.isPrefixOf s.data
  | none => false

/-- Serialization of one category's combined match set:
`', '.join(sorted(combined)) if combined else ''`. -/
def serializeMatches (l : List String) : String :=
  ⟨NEOM.joinSep (", ".data) (NEOM.sortStrs (l.dedup.map String.data))⟩

/-- The all-empty match result used when there is no content text. -/
def emptyMatches : List (String × List String) :=
  SEARCH_CATEGORIES.map (fun p => (p.1, []))

/-- The per-category matches found in the extracted content:
`find_matches_in_text(text) if text else {cat: set() ...}` (a falsy reader
result contributes nothing). -/
def contentMatches : Option String → List (String × List String)
  | some s => if s.data.isEmpty then emptyMatches else find_matches_in_text s
  | none => emptyMatches

/-- Model of `scan_file`: the per-format reader is a collaborator, so its
result is passed in as `text` (`none` models a reader returning `None`).
An `"ERROR:"`-prefixed result yields a `status='error'` row with every
category field empty; otherwise matches from the content and from the file
path are unioned per category and serialized. -/
def scan_file (fi : FileInfo) (text : Option String) : ScanRecord :=
  if isErrorText text then
    { file_path := fi.path
      file_name := fi.name
      file_type := fi.ftype
      status := "error"
      error := text.getD ""
      cats := SEARCH_CATEGORIES.map (fun p => (p.1, "")) }
  else
    let fromContent := contentMatches text
    let fromPath := find_matches_in_text fi.path
    { file_path := fi.path
      file_name := fi.name
      file_type := fi.ftype
      status := "success"
      error := ""
      cats := SEARCH_CATEGORIES.map (fun p =>
        (p.1, serializeMatches
          (matchedTerms fromContent p.1 ++ matchedTerms fromPath p.1))) }

/-- The scan loop of `main`: every target is scanned with its reader result
and appended to the result list; nothing is dropped and nothing aborts. -/
def scanAll (reader : FileInfo → Option String) (files : List FileInfo) :
    List ScanRecord :=
  files.map (fun fi => scan_file fi (reader fi))

/-- Whether a word occurs in `s` as a complete whole-word token: some
case-insensitive occurrence of `w` is neither preceded nor followed by a
word character. This is the specification-side notion used by the
word-boundary claims. -/
def OccursAsWord (w s : Str) : Prop :=
  ∃ pre mid post : Str,
    s = pre ++ mid ++ post ∧
    NEOM.lowerStr mid = NEOM.lowerStr w ∧
    (∀ c, pre.getLast? = some c → NEOM.isWordChar c = false) ∧
    (∀ c, post.head? = some c → NEOM.isWordChar c = false)

end NEOM.Scan

namespace NEOM.Prep

/-- The fields of a `prepare_index.py` record that `build_searchable_text`
reads (each `record.get(key, '')` with default empty string). -/
structure PRecord where
  name : String
  species : String
  activity : String
  filename_tokens : String
  fields : String
  path : String

/-- Path segments of a record path: backslashes normalized to `/`, then
split on `/` (Python `path.replace('\\', '/').split('/')`). -/
def pathSegments (p : String) : List NEOM.Str :=
  NEOM.splitChar '/' (p.data.map (fun c => if c = '\\' then '/' else c))

/-- The meaningful path segments: non-empty, not starting with `.`, and not
containing `:` (`p and not p.startswith('.') and ':' not in p`). -/
def meaningfulSegments (p : String) : List NEOM.Str :=
  (pathSegments p).filter
    (fun s => !s.isEmpty && !(['.'].isPrefixOf s) && !s.contains ':')

/-- Python `l[-4:]`: the last four elements (all of them when fewer). -/
def lastFour (l : List α) : List α := l.drop (l.length - 4)

/-- The parts list accumulated by `build_searchable_text` before the final
space join, in the code's append order. -/
def buildParts (r : PRecord) : List String :=
  (if r.name ≠ "" then [r.name, r.name, r.name] else []) ++
  (if r.species ≠ "" then [r.species, r.species] else []) ++
  (if r.activity ≠ "" then [r.activity] else []) ++
  (if r.filename_tokens ≠ "" then [r.filename_tokens] else []) ++
  (if r.fields ≠ "" then [r.fields] else []) ++
  (if r.path ≠ ""
    then [⟨NEOM.joinSep [' '] (lastFour (meaningfulSegments r.path))⟩]
    else [])

/-- Model of `prepare_index.build_searchable_text`: the weighted parts
joined by single spaces. -/
def build_searchable_text (r : PRecord) : String :=
  ⟨NEOM.joinSep [' '] ((buildParts r).map String.data)⟩

/-- Model of the persisted-record construction in `prepare_index.main`:
`{k: v for k, v in r.items() if k != 'searchable_text'}` applied to each
record before writing `records.json`. -/
def persistRecord (r : List (String × α)) : List (String × α) :=
  r.filter (fun kv => kv.1 ≠ "searchable_text")

/-- The records artifact written by `prepare_index.main`: every record with
its `searchable_text` entry stripped. -/
def persistRecords (rs : List (List (String × α))) : List (List (String × α)) :=
  rs.map persistRecord

end NEOM.Prep

namespace NEOM.V2

/-- The category list of `neom_search_v2/build_index.py` (matches the keys
of `SEARCH_CATEGORIES`). -/
def CATEGORIES : List String :=
  ["marine_mammals", "sharks_rays", "reptiles", "fish", "birds",
   "invertebrates_habitat", "survey_types", "places", "data_types",
   "conservation"]

/-- One row of `species_mentions_scan.csv` as loaded by the index builder.
Cells are modelled as strings, a missing/NaN cell as the empty string
(`pd.notna` failing and Python falsiness coincide under this reading). -/
structure ScanRow where
  file_path : String
  file_name : String
  file_type : String
  status : String
  error : String
  cats : List (String × String)

/-- Category cell of a scan row. -/
def ScanRow.cat (r : ScanRow) (c : String) : String :=
  (r.cats.lookup c).getD ""

/-- Model of `build_index.build_searchable_text`: labelled metadata parts
joined by `" | "`. -/
def build_searchable_text (row : ScanRow) : String :=
  let base :=
    (if row.file_name ≠ "" then ["filename: " ++ row.file_name] else []) ++
    (if row.file_type ≠ "" then ["type: " ++ row.file_type] else []) ++
    ((CATEGORIES.filter (fun c => row.cat c ≠ "")).map
      (fun c => c ++ ": " ++ row.cat c))
  let locPart :=
    if row.file_path ≠ "" then
      let folders := (NEOM.splitChar '/'
          (row.file_path.data.map (fun c => if c = '\\' then '/' else c))).filter
        (fun p => decide (2 < p.length) && !p.contains '.')
      if folders.isEmpty then []
      else ["location: " ++ ⟨NEOM.joinSep [' '] (folders.drop (folders.length - 4))⟩]
    else []
  ⟨NEOM.joinSep " | ".data ((base ++ locPart).map String.data)⟩

/-- The JSON record built for one successful scan row: bookkeeping fields,
the derived searchable text, and every category cell. -/
def mkRecord (row : ScanRow) : List (String × String) :=
  [("file_path", row.file_path),
   ("file_name", row.file_name),
   ("file_type", row.file_type),
   ("searchable_text", build_searchable_text row)] ++
  CATEGORIES.map (fun c => (c, row.cat c))

/-- The comma-separated values of one category cell, stripped
(`[v.strip() for v in str(val).split(',')]`, skipped for empty cells). -/
def cellValues (val : String) : List NEOM.Str :=
  if val = "" then [] else (NEOM.splitChar ',' val.data).map NEOM.stripStr

/-- The filter options of one category over the success rows: the sorted,
de-duplicated union of the stripped cell values. -/
def filterOption (rows : List ScanRow) (c : String) : List String :=
  (NEOM.sortStrs ((rows.foldr (fun row acc => cellValues (row.cat c) ++ acc)
    []).dedup)).map (fun s => (⟨s⟩ : String))

/-- The filter-options table over the success rows. -/
def filterOptions (rows : List ScanRow) : List (String × List String) :=
  CATEGORIES.map (fun c => (c, filterOption rows c))

/-- The artifacts of one index build: the records of `search_index.json`,
the filter-options table, and the row-aligned embedding matrix. -/
structure BuiltIndex (E : Type) where
  records : List (List (String × String))
  filters : List (String × List String)
  embeddings : List E

/-- Model of `build_index.main`: keep only rows with `status == 'success'`,
build a record and an embedding per kept row and the filter options over the
kept rows. The embedding model is the collaborator `embedFn`. -/
def buildIndex (embedFn : String → E) (rows : List ScanRow) : BuiltIndex E :=
  let succ := rows.filter (fun r => r.status == "success")
  { records := succ.map mkRecord
    filters := filterOptions succ
    embeddings := succ.map (fun r => embedFn (build_searchable_text r)) }

end NEOM.V2

namespace NEOM.Service

/-- One loaded record of `search_index.json` as used by `search_service.py`
(category cells accessed through `rec.get(cat, '')`). -/
structure SRecord where
  file_name : String
  file_path : String
  file_type : String
  searchable_text : String
  cats : List (String × String)

instance : Inhabited SRecord := ⟨⟨"", "", "", "", []⟩⟩

/-- Category cell of a loaded record. -/
def SRecord.cat (r : SRecord) (c : String) : String :=
  (r.cats.lookup c).getD ""

/-- The loaded index: records, the category-name list of the index file and
the row-aligned embedding matrix. Embedding vectors are modelled as integer
vectors; the dot product is the similarity score. -/
structure Index where
  records : List SRecord
  categories : List String
  embeddings : List (List Int)

/-- Dot product of two embedding rows. -/
def dot (a b : List Int) : Int :=
  (a.zip b).foldl (fun s p => s + p.1 * p.2) 0

/-- The query parameters of `GET /api/search` (`incl`/`excl` stand for the
`include`/`exclude` parameters; `include` is a reserved word here). -/
structure Query where
  q : String
  marine_mammals : Option String
  sharks_rays : Option String
  reptiles : Option String
  fish : Option String
  birds : Option String
  invertebrates_habitat : Option String
  survey_types : Option String
  places : Option String
  data_types : Option String
  conservation : Option String
  file_type : Option String
  incl : Option String
  excl : Option String
  limit : Int

/-- A query with every parameter unset and the default limit 100. -/
def Query.base : Query :=
  ⟨"", none, none, none, none, none, none, none, none, none, none,
   none, none, none, 100⟩

/-- The `category_filters` dict of `search`, in its literal order. -/
def categoryFilters (qr : Query) : List (String × Option String) :=
  [("marine_mammals", qr.marine_mammals),
   ("sharks_rays", qr.sharks_rays),
   ("reptiles", qr.reptiles),
   ("fish", qr.fish),
   ("birds", qr.birds),
   ("invertebrates_habitat", qr.invertebrates_habitat),
   ("survey_types", qr.survey_types),
   ("places", qr.places),
   ("data_types", qr.data_types),
   ("conservation", qr.conservation)]

/-- Python substring test `needle in hay` (both already lower-cased by the
caller). -/
def isSubstr (needle hay : NEOM.Str) : Bool :=
  (List.range (hay.length + 1)).any (fun i => needle.isPrefixOf (hay.drop i))

/-- One category filter step: `filter_val.lower() in records[i].get(cat,
'').lower()`. -/
def passCat (recs : List SRecord) (cat : String) (v : String) (i : Nat) :
    Bool :=
  isSubstr (NEOM.lowerStr v.data) (NEOM.lowerStr ((recs.getD i default).cat cat).data)

/-- The category-filter loop of `search`: each supplied (truthy) filter
narrows the candidate list in turn. -/
def applyCatFilters (recs : List SRecord)
    (fs : List (String × Option String)) (cand : List Nat) : List Nat :=
  fs.foldl (fun cur p =>
    match p.2 with
    | some v => if v ≠ "" then cur.filter (passCat recs p.1 v) else cur
    | none => cur) cand

/-- The file-type filter: exact equality when a truthy value is supplied. -/
def applyTypeFilter (recs : List SRecord) (ft : Option String)
    (cand : List Nat) : List Nat :=
  match ft with
  | some v =>
    if v ≠ "" then cand.filter (fun i => (recs.getD i default).file_type == v)
    else cand
  | none => cand

/-- The include-regex step: compile the pattern (collaborator `engine`,
modelling `re.compile` with `re.IGNORECASE`); on failure short-circuit with
the error payload message, otherwise keep candidates whose searchable text
or path matches. -/
def applyInclude (engine : String → Except String (String → Bool))
    (recs : List SRecord) (inc : Option String) (cand : List Nat) :
    Except String (List Nat) :=
  match inc with
  | none => .ok cand
  | some pat =>
    if pat = "" then .ok cand
    else
      match engine pat with
      | .error e => .error ("Include regex error: " ++ e)
      | .ok m => .ok (cand.filter (fun i =>
          m (recs.getD i default).searchable_text
            || m (recs.getD i default).file_path))

/-- The exclude-regex step: drop candidates matching in either field. -/
def applyExclude (engine : String → Except String (String → Bool))
    (recs : List SRecord) (exc : Option String) (cand : List Nat) :
    Except String (List Nat) :=
  match exc with
  | none => .ok cand
  | some pat =>
    if pat = "" then .ok cand
    else
      match engine pat with
      | .error e => .error ("Exclude regex error: " ++ e)
      | .ok m => .ok (cand.filter (fun i =>
          !(m (recs.getD i default).searchable_text
            || m (recs.getD i default).file_path)))

/-- Executable stand-in for `np.argsort(-sims)` over the candidate scores:
position-score pairs ordered by strictly greater score. numpy's default
sort kind (`quicksort`, an introsort) gives no guarantee on the relative
order of equal scores, so ties here are fixed to the original position
order only to make `search` a total function; no theorem in this file
relies on this tie order (C3 records the tie-order discrepancy between
the code and the specification as a code bug). -/
def argsortDesc (scores : List Int) : List (Nat × Int) :=
  NEOM.sortByLt (fun a b : Nat × Int => decide (b.2 < a.2)) scores.enum

/-- The semantic ranking branch: score every remaining candidate by dot
product with the query embedding, then order index-score pairs by
descending score. -/
def rankSemantic (qEmb : List Int) (embs : List (List Int))
    (cand : List Nat) : List (Nat × Option Int) :=
  if cand.isEmpty then []
  else
    let sims := cand.map (fun i => dot (embs.getD i []) qEmb)
    (argsortDesc sims).map (fun p => (cand.getD p.1 0, some p.2))

/-- The alphabetical fallback branch: candidates sorted by lower-cased file
name (Python `sorted` with a key function, stable), no scores. -/
def rankAlpha (recs : List SRecord) (cand : List Nat) :
    List (Nat × Option Int) :=
  (NEOM.sortByLt (fun i j =>
      NEOM.clLt (NEOM.lowerStr ((recs.getD i default).file_name).data)
        (NEOM.lowerStr ((recs.getD j default).file_name).data)) cand).map
    (fun i => (i, none))

/-- Python `l[:limit]` for an `int` limit that may be negative. -/
def pyTake (limit : Int) (l : List α) : List α :=
  l.take (if 0 ≤ limit then limit.toNat else ((l.length : Int) + limit).toNat)

/-- One result row of the response payload: bookkeeping fields, the score
when ranking was semantic, and every non-empty category cell. -/
structure ResultRow where
  file_name : String
  file_path : String
  file_type : String
  score : Option Int
  cats : List (String × String)

/-- Build one result row from a ranked index-score pair. -/
def mkRow (recs : List SRecord) (categories : List String)
    (p : Nat × Option Int) : ResultRow :=
  let rec_ := recs.getD p.1 default
  { file_name := rec_.file_name
    file_path := rec_.file_path
    file_type := rec_.file_type
    score := p.2
    cats := (categories.filter (fun c => rec_.cat c ≠ "")).map
      (fun c => (c, rec_.cat c)) }

/-- The success payload of `search`. -/
structure Payload where
  total_matches : Nat
  showing : Nat
  results : List ResultRow

/-- The response of `search`: either `{"error": msg}` or the payload. -/
inductive SearchResult where
  | error (msg : String)
  | ok (p : Payload)

/-- Model of the `search` endpoint: category filters, file-type filter,
include/exclude regex filters (short-circuiting to an error payload on a
compile failure), then semantic or alphabetical ranking and truncation to
`limit`. The embedding model and the regex engine are collaborators. -/
def search (embedFn : String → List Int)
    (engine : String → Except String (String → Bool)) (idx : Index)
    (qr : Query) : SearchResult :=
  let cand0 := List.range idx.records.length
  let cand1 := applyCatFilters idx.records (categoryFilters qr) cand0
  let cand2 := applyTypeFilter idx.records qr.file_type cand1
  match applyInclude engine idx.records qr.incl cand2 with
  | .error e => .error e
  | .ok cand3 =>
    match applyExclude engine idx.records qr.excl cand3 with
    | .error e => .error e
    | .ok cand4 =>
      let ranked :=
        if !(NEOM.stripStr qr.q.data).isEmpty then
          rankSemantic (embedFn qr.q) idx.embeddings cand4
        else rankAlpha idx.records cand4
      let rows := (pyTake qr.limit ranked).map
        (mkRow idx.records idx.categories)
      .ok { total_matches := ranked.length
            showing := rows.length
            results := rows }

/-- The process-wide state of the service: the loaded index (records,
categories, filter options, embeddings). -/
structure ServerState where
  index : Index
  filters : List (String × List String)

/-- A request handled against the loaded state: the handler only reads the
state and returns it unchanged alongside the response (there is no
assignment to the loaded index anywhere in the endpoint). -/
def handleRequest (embedFn : String → List Int)
    (engine : String → Except String (String → Bool)) (st : ServerState)
    (qr : Query) : SearchResult × ServerState :=
  (search embedFn engine st.index qr, st)

/-- The fixed order of the category filter parameters (the keys of the
`category_filters` dict). -/
def categoryOrder : List String :=
  ["marine_mammals", "sharks_rays", "reptiles", "fish", "birds",
   "invertebrates_habitat", "survey_types", "places", "data_types",
   "conservation"]

/-- The category-filter assignment of a request supplying only the filter
`c := v` (every other category parameter unset). -/
def onlyFilter (c v : String) : List (String × Option String) :=
  categoryOrder.map (fun name => (name, if name = c then some v else none))

/-- The category-filter assignment of a request supplying exactly the two
filters `c1 := v1` and `c2 := v2`. -/
def bothFilters (c1 v1 c2 v2 : String) : List (String × Option String) :=
  categoryOrder.map (fun name =>
    (name, if name = c1 then some v1
      else if name = c2 then some v2 else none))

end NEOM.Service

/-! Helper lemmas: case folding, the lexicographic order, and the stable
insertion sort. -/

namespace NEOM

theorem isWordChar_lowerChar (c : Char) :
    isWordChar (lowerChar c) = isWordChar c := by
  unfold lowerChar
  split <;> first | decide | rfl

theorem clLt_nil_right : ∀ s : Str, clLt s [] = false
  | [] => rfl
  | _ :: _ => rfl

theorem clLt_irrefl : ∀ s : Str, clLt s s = false
  | [] => rfl
  | c :: cs => by
    show clLt (c :: cs) (c :: cs) = false
    unfold clLt
    rw [if_neg (lt_irrefl _), if_neg (lt_irrefl _)]
    exact clLt_irrefl cs

theorem clLt_trans : ∀ a b c : Str,
    clLt a b = true → clLt b c = true → clLt a c = true
  | _, [], _, hab, _ => by rw [clLt_nil_right] at hab; exact absurd hab (by simp)
  | _, _, [], _, hbc => by rw [clLt_nil_right] at hbc; exact absurd hbc (by simp)
  | [], _ :: _, _ :: _, _, _ => rfl
  | x :: xs, y :: ys, z :: zs, hab, hbc => by
    unfold clLt at hab hbc ⊢
    rcases Nat.lt_trichotomy x.toNat y.toNat with h1 | h1 | h1
    · rcases Nat.lt_trichotomy y.toNat z.toNat with h2 | h2 | h2
      · rw [if_pos (by omega)]
      · rw [if_pos (by omega)]
      · rw [if_neg (by omega), if_pos h2] at hbc; exact absurd hbc (by simp)
    · rw [if_neg (by omega), if_neg (by omega)] at hab
      rcases Nat.lt_trichotomy y.toNat z.toNat with h2 | h2 | h2
      · rw [if_pos (by omega)]
      · rw [if_neg (by omega), if_neg (by omega)] at hbc ⊢
        exact clLt_trans xs ys zs hab hbc
      · rw [if_neg (by omega), if_pos (by omega)] at hbc
        exact absurd hbc (by simp)
    · rw [if_neg (by omega), if_pos h1] at hab; exact absurd hab (by simp)

theorem char_toNat_inj {a b : Char} (h : a.toNat = b.toNat) : a = b := by
  apply Char.ext
  unfold Char.toNat at h
  exact UInt32.toNat.inj h

theorem clLt_conn : ∀ a b : Str,
    clLt a b = false → clLt b a = false → a = b
  | [], [], _, _ => rfl
  | [], _ :: _, hab, _ => absurd hab (by simp [clLt])
  | _ :: _, [], _, hba => absurd hba (by simp [clLt])
  | x :: xs, y :: ys, hab, hba => by
    unfold clLt at hab hba
    by_cases h1 : x.toNat < y.toNat
    · rw [if_pos h1] at hab; exact absurd hab (by simp)
    · by_cases h2 : y.toNat < x.toNat
      · rw [if_pos h2] at hba; exact absurd hba (by simp)
      · rw [if_neg h1, if_neg (by omega : ¬ y.toNat < x.toNat)] at hab
        rw [if_neg h2, if_neg (by omega : ¬ x.toNat < y.toNat)] at hba
        have hx : x = y := char_toNat_inj (by omega)
        have := clLt_conn xs ys hab hba
        rw [hx, this]

theorem clLt_neg (a b c : Str) (h : clLt a c = true) :
    clLt a b = true ∨ clLt b c = true := by
  by_cases h1 : clLt a b = true
  · exact Or.inl h1
  · by_cases h2 : clLt b a = true
    · exact Or.inr (clLt_trans b a c h2 h)
    · have heq := clLt_conn a b (by simpa using h1) (by simpa using h2)
      exact Or.inr (heq ▸ h)

theorem insertLt_perm (lt : α → α → Bool) (x : α) :
    ∀ l : List α, (insertLt lt x l).Perm (x :: l)
  | [] => List.Perm.refl _
  | y :: ys => by
    unfold insertLt
    split
    · exact List.Perm.refl _
    · exact ((insertLt_perm lt x ys).cons y).trans (List.Perm.swap x y ys)

theorem sortByLt_perm_aux (lt : α → α → Bool) :
    ∀ (l acc : List α),
      (List.foldl (fun acc x => insertLt lt x acc) acc l).Perm (acc ++ l)
  | [], acc => by simp
  | x :: xs, acc => by
    have h1 := sortByLt_perm_aux lt xs (insertLt lt x acc)
    have h2 : (insertLt lt x acc ++ xs).Perm (acc ++ x :: xs) := by
      have := (insertLt_perm lt x acc).append_right xs
      exact this.trans (List.perm_middle.symm)
    rw [List.foldl_cons]
    exact h1.trans h2

theorem sortByLt_perm (lt : α → α → Bool) (l : List α) :
    (sortByLt lt l).Perm l := by
  simpa using sortByLt_perm_aux lt l []

theorem mem_sortByLt (lt : α → α → Bool) (l : List α) (x : α) :
    x ∈ sortByLt lt l ↔ x ∈ l :=
  (sortByLt_perm lt l).mem_iff

theorem insertLt_pairwise {lt : α → α → Bool} {P : α → α → Prop}
    (Hirr : ∀ a, lt a a = false)
    (Htr : ∀ a b c, lt a b = true → lt b c = true → lt a c = true)
    (Hneg : ∀ a b c, lt a c = true → lt a b = true ∨ lt b c = true)
    {x : α} :
    ∀ {l : List α},
      (l.Pairwise fun a b => lt b a = false ∧ (lt a b = true ∨ P a b)) →
      (∀ y ∈ l, P y x) →
      (insertLt lt x l).Pairwise
        fun a b => lt b a = false ∧ (lt a b = true ∨ P a b)
  | [], _, _ => by simp [insertLt]
  | y :: ys, hl, hx => by
    unfold insertLt
    rcases List.pairwise_cons.mp hl with ⟨hy, hys⟩
    split
    case isTrue h =>
      refine List.Pairwise.cons ?_ hl
      intro z hz
      rcases List.mem_cons.mp hz with rfl | hz'
      · refine ⟨?_, Or.inl h⟩
        by_contra hc
        rw [Bool.not_eq_false] at hc
        exact absurd (Htr _ _ _ h hc) (by simp [Hirr])
      · have hyz := hy z hz'
        refine ⟨?_, ?_⟩
        · by_contra hc
          rw [Bool.not_eq_false] at hc
          exact absurd (Htr _ _ _ hc h) (by simp [hyz.1])
        · rcases Hneg x z y h with h' | h'
          · exact Or.inl h'
          · exact absurd h' (by simp [hyz.1])
    case isFalse h =>
      refine List.Pairwise.cons ?_
        (insertLt_pairwise Hirr Htr Hneg hys
          (fun z hz => hx z (List.mem_cons_of_mem _ hz)))
      intro z hz
      have hz' : z = x ∨ z ∈ ys := by
        simpa using (insertLt_perm lt x ys).mem_iff.mp hz
      rcases hz' with rfl | hz'
      · exact ⟨by simpa using h, Or.inr (hx _ (List.mem_cons_self _ _))⟩
      · exact hy z hz'

theorem sortByLt_pairwise_aux {lt : α → α → Bool} {P : α → α → Prop}
    (Hirr : ∀ a, lt a a = false)
    (Htr : ∀ a b c, lt a b = true → lt b c = true → lt a c = true)
    (Hneg : ∀ a b c, lt a c = true → lt a b = true ∨ lt b c = true) :
    ∀ (l acc : List α),
      (acc.Pairwise fun a b => lt b a = false ∧ (lt a b = true ∨ P a b)) →
      (∀ y ∈ acc, ∀ x ∈ l, P y x) →
      l.Pairwise P →
      (List.foldl (fun acc x => insertLt lt x acc) acc l).Pairwise
        fun a b => lt b a = false ∧ (lt a b = true ∨ P a b)
  | [], _, hacc, _, _ => hacc
  | x :: xs, acc, hacc, hcross, hP => by
    rw [List.foldl_cons]
    rcases List.pairwise_cons.mp hP with ⟨hxxs, hxs⟩
    refine sortByLt_pairwise_aux Hirr Htr Hneg xs (insertLt lt x acc) ?_ ?_ hxs
    · exact insertLt_pairwise Hirr Htr Hneg hacc
        (fun y hy => hcross y hy x (List.mem_cons_self _ _))
    · intro y hy z hz
      have hy' : y = x ∨ y ∈ acc := by
        simpa using (insertLt_perm lt x acc).mem_iff.mp hy
      rcases hy' with rfl | hy'
      · exact hxxs z hz
      · exact hcross y hy' z (List.mem_cons_of_mem _ hz)

theorem sortByLt_pairwise {lt : α → α → Bool} {P : α → α → Prop}
    (Hirr : ∀ a, lt a a = false)
    (Htr : ∀ a b c, lt a b = true → lt b c = true → lt a c = true)
    (Hneg : ∀ a b c, lt a c = true → lt a b = true ∨ lt b c = true)
    {l : List α} (hP : l.Pairwise P) :
    (sortByLt lt l).Pairwise
      fun a b => lt b a = false ∧ (lt a b = true ∨ P a b) :=
  sortByLt_pairwise_aux Hirr Htr Hneg l [] (by simp) (by simp) hP

theorem sortByLt_sorted {lt : α → α → Bool}
    (Hirr : ∀ a, lt a a = false)
    (Htr : ∀ a b c, lt a b = true → lt b c = true → lt a c = true)
    (Hneg : ∀ a b c, lt a c = true → lt a b = true ∨ lt b c = true)
    (l : List α) :
    (sortByLt lt l).Pairwise fun a b => lt b a = false :=
  ((sortByLt_pairwise Hirr Htr Hneg
    (List.pairwise_iff_forall_sublist.mpr (fun _ => trivial) :
      l.Pairwise fun _ _ => True)).imp (fun h => h.1))

end NEOM

/-! Helper lemmas: the word-boundary matcher. -/

namespace NEOM.Scan

theorem lower_eq_getElem? {a b : NEOM.Str} (h : NEOM.lowerStr a = NEOM.lowerStr b)
    (k : Nat) :
    (a[k]?).map NEOM.lowerChar = (b[k]?).map NEOM.lowerChar := by
  have := congrArg (fun l => l[k]?) h
  simpa [NEOM.lowerStr, List.getElem?_map] using this

theorem isWordChar_eq_of_lower {a b : Char}
    (h : NEOM.lowerChar a = NEOM.lowerChar b) :
    NEOM.isWordChar a = NEOM.isWordChar b := by
  rw [← NEOM.isWordChar_lowerChar a, ← NEOM.isWordChar_lowerChar b, h]

theorem lower_eq_length {a b : NEOM.Str}
    (h : NEOM.lowerStr a = NEOM.lowerStr b) : a.length = b.length := by
  have := congrArg List.length h
  simpa [NEOM.lowerStr] using this

theorem wordBoundaryAt_succ (s : NEOM.Str) (j : Nat) :
    NEOM.wordBoundaryAt s (j + 1)
      = (NEOM.isWordAt s j != NEOM.isWordAt s (j + 1)) := by
  unfold NEOM.wordBoundaryAt
  simp

theorem wordBoundaryAt_zero (s : NEOM.Str) :
    NEOM.wordBoundaryAt s 0 = (false != NEOM.isWordAt s 0) := by
  unfold NEOM.wordBoundaryAt
  simp

theorem boundary_before_of {s : NEOM.Str} {j : Nat}
    (h : NEOM.wordBoundaryAt s (j + 1) = true)
    (ha : NEOM.isWordAt s (j + 1) = true) :
    NEOM.isWordAt s j = false := by
  rw [wordBoundaryAt_succ, ha] at h
  cases hj : NEOM.isWordAt s j
  · rfl
  · rw [hj] at h; exact absurd h (by decide)

theorem boundary_after_of {s : NEOM.Str} {j : Nat}
    (h : NEOM.wordBoundaryAt s (j + 1) = true)
    (hb : NEOM.isWordAt s j = true) :
    NEOM.isWordAt s (j + 1) = false := by
  rw [wordBoundaryAt_succ, hb] at h
  cases hj : NEOM.isWordAt s (j + 1)
  · rfl
  · rw [hj] at h; exact absurd h (by decide)

theorem boundary_mk_zero {s : NEOM.Str}
    (ha : NEOM.isWordAt s 0 = true) : NEOM.wordBoundaryAt s 0 = true := by
  rw [wordBoundaryAt_zero, ha]
  rfl

theorem boundary_mk_succ {s : NEOM.Str} {j : Nat}
    (hb : NEOM.isWordAt s j = false) (ha : NEOM.isWordAt s (j + 1) = true) :
    NEOM.wordBoundaryAt s (j + 1) = true := by
  rw [wordBoundaryAt_succ, hb, ha]
  rfl

theorem boundary_mk_succ' {s : NEOM.Str} {j : Nat}
    (hb : NEOM.isWordAt s j = true) (ha : NEOM.isWordAt s (j + 1) = false) :
    NEOM.wordBoundaryAt s (j + 1) = true := by
  rw [wordBoundaryAt_succ, hb, ha]
  rfl

theorem slice_word_at {s mid w : NEOM.Str} {i k : Nat}
    (hel : s[i + k]? = mid[k]?)
    (heq : NEOM.lowerStr mid = NEOM.lowerStr w)
    (hk : k < w.length)
    (hwchar : ∀ c, w[k]? = some c → NEOM.isWordChar c = true) :
    NEOM.isWordAt s (i + k) = true := by
  have hkm : k < mid.length := by rw [lower_eq_length heq]; exact hk
  have h2 := lower_eq_getElem? heq k
  obtain ⟨cm, hcm⟩ : ∃ cm, mid[k]? = some cm :=
    ⟨_, List.getElem?_eq_getElem hkm⟩
  obtain ⟨cw, hcw⟩ : ∃ cw, w[k]? = some cw :=
    ⟨_, List.getElem?_eq_getElem hk⟩
  rw [hcm, hcw] at h2
  have h3 : NEOM.lowerChar cm = NEOM.lowerChar cw := by
    simpa using h2
  unfold NEOM.isWordAt
  rw [hel, hcm]
  show NEOM.isWordChar cm = true
  rw [isWordChar_eq_of_lower h3]
  exact hwchar cw hcw

theorem candSearch_iff {w s : NEOM.Str} (hw : w ≠ [])
    (hhead : ∀ c, w.head? = some c → NEOM.isWordChar c = true)
    (hlast : ∀ c, w.getLast? = some c → NEOM.isWordChar c = true) :
    candSearch w s = true ↔ OccursAsWord w s := by
  have hwlen : 0 < w.length := List.length_pos.mpr hw
  have hhead' : ∀ c, w[0]? = some c → NEOM.isWordChar c = true := by
    intro c hc
    exact hhead c (by rw [List.head?_eq_getElem?]; exact hc)
  have hlast' : ∀ c, w[w.length - 1]? = some c → NEOM.isWordChar c = true := by
    intro c hc
    exact hlast c (by rw [List.getLast?_eq_getElem?]; exact hc)
  constructor
  · intro h
    obtain ⟨i, hi, hmatch⟩ := List.any_eq_true.mp h
    have hi' : i ≤ s.length := by
      have := List.mem_range.mp hi
      omega
    unfold matchCandAt at hmatch
    rw [Bool.and_eq_true, Bool.and_eq_true] at hmatch
    obtain ⟨⟨hsl, hb1⟩, hb2⟩ := hmatch
    have heq : NEOM.lowerStr ((s.drop i).take w.length) = NEOM.lowerStr w := by
      simpa [NEOM.lowerStr] using hsl
    have hmlen : ((s.drop i).take w.length).length = w.length :=
      lower_eq_length heq
    have hiw : i + w.length ≤ s.length := by
      have : ((s.drop i).take w.length).length = min w.length (s.length - i) := by
        rw [List.length_take, List.length_drop]
      omega
    have hel : ∀ k, k < w.length → s[i + k]? = ((s.drop i).take w.length)[k]? := by
      intro k hk
      rw [List.getElem?_take, if_pos hk, List.getElem?_drop]
    have hword0 : NEOM.isWordAt s i = true := by
      have := slice_word_at (i := i) (k := 0)
        (by simpa using hel 0 hwlen) heq hwlen hhead'
      simpa using this
    have hwordl : NEOM.isWordAt s (i + (w.length - 1)) = true :=
      slice_word_at (hel _ (by omega)) heq (by omega) hlast'
    refine ⟨s.take i, (s.drop i).take w.length, s.drop (i + w.length),
      ?_, heq, ?_, ?_⟩
    · rw [List.append_assoc]
      conv_lhs => rw [← List.take_append_drop i s]
      congr 1
      conv_lhs => rw [← List.take_append_drop w.length (s.drop i)]
      congr 1
      rw [List.drop_drop]
    · -- no word character just before the match
      intro c hc
      cases i with
      | zero => rw [List.take_zero] at hc; exact absurd hc (by simp)
      | succ j =>
        have hj : NEOM.isWordAt s j = false := boundary_before_of hb1 hword0
        have hgl : (s.take (j + 1)).getLast? = s[j]? := by
          rw [List.getLast?_eq_getElem?, List.length_take]
          have hmin : min (j + 1) s.length = j + 1 := by omega
          rw [hmin]
          simp only [Nat.add_sub_cancel]
          rw [List.getElem?_take, if_pos (by omega)]
        rw [hgl] at hc
        unfold NEOM.isWordAt at hj
        rw [hc] at hj
        exact hj
    · -- no word character just after the match
      intro c hc
      have hpos : i + w.length = i + (w.length - 1) + 1 := by omega
      have hafter : NEOM.isWordAt s (i + w.length) = false := by
        rw [hpos] at hb2 ⊢
        exact boundary_after_of hb2 hwordl
      have hh : (s.drop (i + w.length)).head? = s[i + w.length]? := by
        rw [List.head?_eq_getElem?, List.getElem?_drop, Nat.add_zero]
      rw [hh] at hc
      unfold NEOM.isWordAt at hafter
      rw [hc] at hafter
      exact hafter
  · rintro ⟨pre, mid, post, happ, heq, hpre, hpost⟩
    have hmlen : mid.length = w.length := lower_eq_length heq
    have hslen : s.length = pre.length + mid.length + post.length := by
      rw [happ]
      simp [List.length_append]
      omega
    have hel : ∀ k, k < w.length → s[pre.length + k]? = mid[k]? := by
      intro k hk
      rw [happ, List.append_assoc, List.getElem?_append, if_neg (by omega),
        Nat.add_sub_cancel_left, List.getElem?_append, if_pos (by omega)]
    have hword0 : NEOM.isWordAt s pre.length = true := by
      have := slice_word_at (i := pre.length) (k := 0)
        (by simpa using hel 0 (by omega)) heq (by omega) hhead'
      simpa using this
    have hwordl : NEOM.isWordAt s (pre.length + (w.length - 1)) = true :=
      slice_word_at (hel _ (by omega)) heq (by omega) hlast'
    unfold candSearch
    rw [List.any_eq_true]
    refine ⟨pre.length, List.mem_range.mpr (by omega), ?_⟩
    unfold matchCandAt
    rw [Bool.and_eq_true, Bool.and_eq_true]
    refine ⟨⟨?_, ?_⟩, ?_⟩
    · -- the slice equality
      have hmid' : (s.drop pre.length).take w.length = mid := by
        have hdrop : s.drop pre.length = mid ++ post := by
          rw [happ, List.append_assoc, List.drop_left]
        rw [hdrop, ← hmlen, List.take_left]
      rw [hmid']
      simp only [NEOM.lowerStr] at heq
      exact beq_iff_eq.mpr heq
    · -- boundary before the match
      cases hp : pre.length with
      | zero =>
        rw [hp] at hword0
        exact boundary_mk_zero hword0
      | succ j =>
        rw [hp] at hword0
        refine boundary_mk_succ ?_ hword0
        have hjlt : j < pre.length := by omega
        have hsj : s[j]? = pre[j]? := by
          rw [happ, List.append_assoc, List.getElem?_append, if_pos (by omega)]
        cases hpj : pre[j]? with
        | none =>
          unfold NEOM.isWordAt
          rw [hsj, hpj]
        | some c =>
          have hgl : pre.getLast? = some c := by
            rw [List.getLast?_eq_getElem?, hp]
            simpa using hpj
          unfold NEOM.isWordAt
          rw [hsj, hpj]
          exact hpre c hgl
    · -- boundary after the match
      have hpos : pre.length + w.length = pre.length + (w.length - 1) + 1 := by
        omega
      have hafter : NEOM.isWordAt s (pre.length + w.length) = false := by
        have hsk : s[pre.length + w.length]? = post[0]? := by
          rw [happ, List.append_assoc, List.getElem?_append, if_neg (by omega),
            Nat.add_sub_cancel_left, List.getElem?_append, if_neg (by omega),
            hmlen, Nat.sub_self]
        cases hp0 : post[0]? with
        | none =>
          unfold NEOM.isWordAt
          rw [hsk, hp0]
        | some c =>
          have hph : post.head? = some c := by
            rw [List.head?_eq_getElem?]
            exact hp0
          unfold NEOM.isWordAt
          rw [hsk, hp0]
          exact hpost c hph
      rw [hpos]
      rw [hpos] at hafter
      exact boundary_mk_succ' hwordl hafter

end NEOM.Scan

namespace NEOM.Scan

theorem occursAsWord_nil {w : NEOM.Str} (hw : w ≠ []) : ¬ OccursAsWord w [] := by
  rintro ⟨pre, mid, post, happ, heq, -, -⟩
  have h1 : mid.length = w.length := lower_eq_length heq
  have h2 := congrArg List.length happ
  simp [List.length_append] at h2
  exact hw (List.length_eq_zero.mp (by omega))

theorem lookup_map_pair {β γ : Type} (f : String × β → γ) :
    ∀ (l : List (String × β)) (cat : String) (v : β),
      (l.map Prod.fst).Nodup → (cat, v) ∈ l →
      (l.map (fun p => (p.1, f p))).lookup cat = some (f (cat, v))
  | [], _, _, _, hmem => absurd hmem (by simp)
  | (a, b) :: rest, cat, v, hnd, hmem => by
    rw [List.map_cons, List.nodup_cons] at hnd
    by_cases hca : cat = a
    · subst hca
      have hv : v = b := by
        rcases List.mem_cons.mp hmem with h | h
        · exact congrArg Prod.snd h
        · exact absurd (List.mem_map_of_mem Prod.fst h) hnd.1
      subst hv
      simp [List.lookup]
    · have hmem' : (cat, v) ∈ rest := by
        rcases List.mem_cons.mp hmem with h | h
        · exact absurd (congrArg Prod.fst h) hca
        · exact h
      simp only [List.map_cons, List.lookup,
        beq_eq_false_iff_ne.mpr hca]
      exact lookup_map_pair f rest cat v hnd.2 hmem'

theorem searchCategories_keys_nodup :
    (SEARCH_CATEGORIES.map Prod.fst).Nodup := by decide

theorem termsOK : SEARCH_CATEGORIES.all (fun p => p.2.all (fun t =>
    !t.data.isEmpty
    && (match t.data.head? with
        | some c => NEOM.isWordChar c
        | none => false)
    && (match t.data.getLast? with
        | some c => NEOM.isWordChar c
        | none => false))) = true := by decide

theorem term_props {cat : String} {terms : List String} {t : String}
    (hc : (cat, terms) ∈ SEARCH_CATEGORIES) (ht : t ∈ terms) :
    t.data ≠ [] ∧ (∀ c, t.data.head? = some c → NEOM.isWordChar c = true) ∧
      (∀ c, t.data.getLast? = some c → NEOM.isWordChar c = true) := by
  have h1 := List.all_eq_true.mp termsOK _ hc
  have h2 := List.all_eq_true.mp h1 _ ht
  rw [Bool.and_eq_true, Bool.and_eq_true] at h2
  obtain ⟨⟨hne, hh⟩, hl⟩ := h2
  refine ⟨by simpa using hne, ?_, ?_⟩
  · intro c hc'
    rw [hc'] at hh
    exact hh
  · intro c hc'
    rw [hc'] at hl
    exact hl

theorem append_s_props {t : NEOM.Str} (hne : t ≠ [])
    (hh : ∀ c, t.head? = some c → NEOM.isWordChar c = true) :
    (t ++ ['s']) ≠ [] ∧
      (∀ c, (t ++ ['s']).head? = some c → NEOM.isWordChar c = true) ∧
      (∀ c, (t ++ ['s']).getLast? = some c → NEOM.isWordChar c = true) := by
  refine ⟨by simp, ?_, ?_⟩
  · intro c hc
    cases t with
    | nil => exact absurd rfl hne
    | cons a as =>
      have ha : a = c := by simpa using hc
      exact ha ▸ hh a rfl
  · intro c hc
    rw [List.getLast?_concat] at hc
    have : c = 's' := by simpa using hc.symm
    subst this
    decide

theorem matchedTerms_find {cat : String} {terms : List String}
    (hc : (cat, terms) ∈ SEARCH_CATEGORIES) (text : String) :
    matchedTerms (find_matches_in_text text) cat
      = if text.data.isEmpty then []
        else terms.filter (fun t => termSearch t.data text.data) := by
  unfold find_matches_in_text matchedTerms
  split
  · rw [lookup_map_pair (fun _ => ([] : List String)) _ _ _
      searchCategories_keys_nodup hc]
    rfl
  · rw [lookup_map_pair
      (fun p => p.2.filter (fun t => termSearch t.data text.data)) _ _ _
      searchCategories_keys_nodup hc]
    rfl

end NEOM.Scan

/-! The claims. -/

namespace NEOM

/-- C1: for every configured category term `t` and every input text, the
compiled pattern of `CATEGORY_PATTERNS` used by `find_matches_in_text`
reports `t` exactly when `t`, or `t` followed by a single trailing `s`,
occurs in the text as a complete whole-word token (case-insensitively); in
particular an occurrence of `t` only inside a longer token (such as "ray"
inside "array") is not reported. -/
theorem c1_whole_word_matching (cat : String) (terms : List String)
    (t : String) (text : String)
    (hc : (cat, terms) ∈ Scan.SEARCH_CATEGORIES) (ht : t ∈ terms) :
    t ∈ Scan.matchedTerms (Scan.find_matches_in_text text) cat ↔
      (Scan.OccursAsWord t.data text.data ∨
        Scan.OccursAsWord (t.data ++ ['s']) text.data) := by
  obtain ⟨hne, hh, hl⟩ := Scan.term_props hc ht
  rw [Scan.matchedTerms_find hc]
  split
  case isTrue hemp =>
    have he : text.data = [] := by simpa using hemp
    refine iff_of_false (by simp) ?_
    rw [he]
    rintro (hocc | hocc)
    · exact Scan.occursAsWord_nil hne hocc
    · exact Scan.occursAsWord_nil (by simp) hocc
  case isFalse hemp =>
    rw [List.mem_filter]
    obtain ⟨hne2, hh2, hl2⟩ := Scan.append_s_props hne hh
    have hts : Scan.termSearch t.data text.data = true ↔
        (Scan.OccursAsWord t.data text.data ∨
          Scan.OccursAsWord (t.data ++ ['s']) text.data) := by
      unfold Scan.termSearch
      rw [Bool.or_eq_true, Scan.candSearch_iff hne hh hl,
        Scan.candSearch_iff hne2 hh2 hl2]
    constructor
    · rintro ⟨-, h⟩
      exact hts.mp h
    · intro h
      exact ⟨ht, hts.mpr h⟩

/-- Witness for C1: the term "ray" of category `sharks_rays` evaluated on a
text containing "rays" as a token and "ray" inside "array": the matcher
reports it, and the characterization instantiates. -/
theorem c1_whole_word_matching_witness :
    ("sharks_rays", ((Scan.SEARCH_CATEGORIES.lookup "sharks_rays").getD [] : List String))
        ∈ Scan.SEARCH_CATEGORIES ∧
    "ray" ∈ ((Scan.SEARCH_CATEGORIES.lookup "sharks_rays").getD [] : List String) ∧
    ("ray" ∈ Scan.matchedTerms
        (Scan.find_matches_in_text "rays near the array") "sharks_rays" ↔
      (Scan.OccursAsWord "ray".data "rays near the array".data ∨
        Scan.OccursAsWord ("ray".data ++ ['s']) "rays near the array".data)) :=
  ⟨by decide, by decide,
    c1_whole_word_matching "sharks_rays"
      ((Scan.SEARCH_CATEGORIES.lookup "sharks_rays").getD [] : List String)
      "ray" "rays near the array" (by decide) (by decide)⟩

end NEOM

namespace NEOM.Scan

theorem string_data_inj : Function.Injective String.data :=
  fun _ _ h => String.ext h

theorem string_mk_inj : Function.Injective (fun s : NEOM.Str => (⟨s⟩ : String)) :=
  fun _ _ h => congrArg String.data h

theorem map_data_mk (ll : List NEOM.Str) :
    (ll.map (fun s => (⟨s⟩ : String))).map String.data = ll := by
  rw [List.map_map]
  exact List.map_id ll

theorem serializeMatches_spec (A : List String) :
    ∃ l : List String,
      serializeMatches A = ⟨NEOM.joinSep ", ".data (l.map String.data)⟩ ∧
      (l.map String.data).Pairwise (fun a b => NEOM.clLt b a = false) ∧
      l.Nodup ∧ (∀ u, u ∈ l ↔ u ∈ A) := by
  refine ⟨(NEOM.sortByLt NEOM.clLt (A.dedup.map String.data)).map
    (fun s => (⟨s⟩ : String)), ?_, ?_, ?_, ?_⟩
  · rw [map_data_mk]
    rfl
  · rw [map_data_mk]
    exact NEOM.sortByLt_sorted
      (fun a => NEOM.clLt_irrefl a)
      (fun a b c => NEOM.clLt_trans a b c)
      (fun a b c => NEOM.clLt_neg a b c) _
  · refine List.Nodup.map string_mk_inj ?_
    have hperm := NEOM.sortByLt_perm NEOM.clLt (A.dedup.map String.data)
    rw [hperm.nodup_iff]
    exact (List.nodup_dedup A).map string_data_inj
  · intro u
    constructor
    · intro hu
      obtain ⟨s, hs, hsu⟩ := List.mem_map.mp hu
      rw [NEOM.mem_sortByLt] at hs
      obtain ⟨v, hv, hvs⟩ := List.mem_map.mp hs
      have hvu : v = u := by
        rw [← hsu, ← hvs]
      rw [← hvu]
      exact List.mem_dedup.mp hv
    · intro hu
      refine List.mem_map.mpr ⟨u.data, ?_, String.ext rfl⟩
      rw [NEOM.mem_sortByLt]
      exact List.mem_map_of_mem _ (List.mem_dedup.mpr hu)

end NEOM.Scan

namespace NEOM

/-- C7: for every scan target whose reader result carries the `"ERROR:"`
sentinel, `scan_file` returns a record with `status = "error"` and every
category field empty, and the scan loop still produces one row per target
(no file aborts the batch). -/
theorem c7_reader_error (fi : Scan.FileInfo) (text : Option String)
    (herr : Scan.isErrorText text = true) :
    (Scan.scan_file fi text).status = "error" ∧
    (∀ cat terms, (cat, terms) ∈ Scan.SEARCH_CATEGORIES →
      (Scan.scan_file fi text).cat cat = "") ∧
    (∀ (reader : Scan.FileInfo → Option String)
        (files : List Scan.FileInfo),
      (Scan.scanAll reader files).length = files.length) := by
  refine ⟨?_, ?_, ?_⟩
  · unfold Scan.scan_file
    rw [if_pos herr]
  · intro cat terms hct
    unfold Scan.ScanRecord.cat Scan.scan_file
    rw [if_pos herr]
    simp only
    rw [Scan.lookup_map_pair (fun _ => "") _ _ _
      Scan.searchCategories_keys_nodup hct]
    rfl
  · intro reader files
    unfold Scan.scanAll
    rw [List.length_map]

/-- Witness for C7: a CSV target whose reader returned an `"ERROR:"`
sentinel string. -/
theorem c7_reader_error_witness :
    Scan.isErrorText (some "ERROR: unreadable") = true ∧
    ((Scan.scan_file ⟨"E:\\a.csv", "a.csv", "csv"⟩
        (some "ERROR: unreadable")).status = "error" ∧
      (∀ cat terms, (cat, terms) ∈ Scan.SEARCH_CATEGORIES →
        (Scan.scan_file ⟨"E:\\a.csv", "a.csv", "csv"⟩
          (some "ERROR: unreadable")).cat cat = "") ∧
      (∀ (reader : Scan.FileInfo → Option String)
          (files : List Scan.FileInfo),
        (Scan.scanAll reader files).length = files.length)) :=
  ⟨by decide,
    c7_reader_error ⟨"E:\\a.csv", "a.csv", "csv"⟩ (some "ERROR: unreadable")
      (by decide)⟩

/-- C8: for every successfully read scan target and every configured
category, the serialized category field is the comma-joined, sorted,
duplicate-free list whose members are exactly the union of the terms
matched in the extracted content and the terms matched in the file's own
path string. -/
theorem c8_union_of_content_and_path (fi : Scan.FileInfo)
    (text : Option String) (hok : Scan.isErrorText text = false)
    (cat : String) (terms : List String)
    (hct : (cat, terms) ∈ Scan.SEARCH_CATEGORIES) :
    ∃ l : List String,
      (Scan.scan_file fi text).cat cat
        = ⟨NEOM.joinSep ", ".data (l.map String.data)⟩ ∧
      (l.map String.data).Pairwise (fun a b => NEOM.clLt b a = false) ∧
      l.Nodup ∧
      (∀ u : String, u ∈ l ↔
        (u ∈ Scan.matchedTerms (Scan.contentMatches text) cat ∨
          u ∈ Scan.matchedTerms (Scan.find_matches_in_text fi.path) cat)) := by
  have hfield : (Scan.scan_file fi text).cat cat
      = Scan.serializeMatches
          (Scan.matchedTerms (Scan.contentMatches text) cat
            ++ Scan.matchedTerms (Scan.find_matches_in_text fi.path) cat) := by
    unfold Scan.ScanRecord.cat Scan.scan_file
    rw [if_neg (by rw [hok]; simp)]
    simp only
    rw [Scan.lookup_map_pair
      (fun p => Scan.serializeMatches
        (Scan.matchedTerms (Scan.contentMatches text) p.1
          ++ Scan.matchedTerms (Scan.find_matches_in_text fi.path) p.1))
      _ _ _ Scan.searchCategories_keys_nodup hct]
    rfl
  obtain ⟨l, h1, h2, h3, h4⟩ := Scan.serializeMatches_spec
    (Scan.matchedTerms (Scan.contentMatches text) cat
      ++ Scan.matchedTerms (Scan.find_matches_in_text fi.path) cat)
  refine ⟨l, by rw [hfield, h1], h2, h3, ?_⟩
  intro u
  rw [h4 u, List.mem_append]

/-- Witness for C8: the spec's dugong example — content "Dugong sightings
2023" and a path containing "Dugong_IR_Rev01" produce the single
de-duplicated entry "dugong" in `marine_mammals`. -/
theorem c8_union_of_content_and_path_witness :
    Scan.isErrorText (some "Dugong sightings 2023") = false ∧
    (Scan.scan_file
        ⟨"E:\\KBD\\Dugong_IR_Rev01\\d.csv", "d.csv", "csv"⟩
        (some "Dugong sightings 2023")).cat "marine_mammals" = "dugong" ∧
    (∃ l : List String,
      (Scan.scan_file
          ⟨"E:\\KBD\\Dugong_IR_Rev01\\d.csv", "d.csv", "csv"⟩
          (some "Dugong sightings 2023")).cat "marine_mammals"
        = ⟨NEOM.joinSep ", ".data (l.map String.data)⟩ ∧
      (l.map String.data).Pairwise (fun a b => NEOM.clLt b a = false) ∧
      l.Nodup ∧
      (∀ u : String, u ∈ l ↔
        (u ∈ Scan.matchedTerms
            (Scan.contentMatches (some "Dugong sightings 2023"))
            "marine_mammals" ∨
          u ∈ Scan.matchedTerms
            (Scan.find_matches_in_text "E:\\KBD\\Dugong_IR_Rev01\\d.csv")
            "marine_mammals"))) :=
  ⟨by decide, by decide,
    c8_union_of_content_and_path
      ⟨"E:\\KBD\\Dugong_IR_Rev01\\d.csv", "d.csv", "csv"⟩
      (some "Dugong sightings 2023") (by decide) "marine_mammals"
      ((Scan.SEARCH_CATEGORIES.lookup "marine_mammals").getD [] : List String)
      (by decide)⟩

end NEOM

namespace NEOM.V2

theorem mem_foldr_append {α β : Type} (f : α → List β) :
    ∀ (rows : List α) (s : β),
      (s ∈ rows.foldr (fun row acc => f row ++ acc) []) ↔
        ∃ row, row ∈ rows ∧ s ∈ f row
  | [], s => by simp
  | r :: rs, s => by
    simp only [List.foldr_cons, List.mem_append, List.mem_cons]
    rw [mem_foldr_append f rs s]
    constructor
    · rintro (h | ⟨row, hrow, hs⟩)
      · exact ⟨r, Or.inl rfl, h⟩
      · exact ⟨row, Or.inr hrow, hs⟩
    · rintro ⟨row, hrow | hrow, hs⟩
      · exact Or.inl (hrow ▸ hs)
      · exact Or.inr ⟨row, hrow, hs⟩

end NEOM.V2

namespace NEOM

/-- C4 counterexample: a record whose species equals its name ("x") has
non-empty name and species, yet the searchable text is "x x x x x" — the
name occurs five times among the concatenated parts, not exactly three
(and the species five times, not exactly two). -/
theorem c4_exact_count_counterexample :
    ({ name := "x", species := "x", activity := "", filename_tokens := "",
       fields := "", path := "" } : Prep.PRecord).name ≠ "" ∧
    ({ name := "x", species := "x", activity := "", filename_tokens := "",
       fields := "", path := "" } : Prep.PRecord).species ≠ "" ∧
    Prep.build_searchable_text
      { name := "x", species := "x", activity := "", filename_tokens := "",
        fields := "", path := "" } = "x x x x x" ∧
    ¬((Prep.buildParts
        { name := "x", species := "x", activity := "", filename_tokens := "",
          fields := "", path := "" }).count
        ({ name := "x", species := "x", activity := "", filename_tokens := "",
           fields := "", path := "" } : Prep.PRecord).name = 3) := by
  refine ⟨by decide, by decide, by decide, by decide⟩

/-- C4 (amended): for every record with non-empty name and species,
`build_searchable_text` concatenates, in order, the name three times, the
species twice, then the non-empty ones among activity, filename tokens and
fields once each, then the space-joined last four meaningful path segments,
all joined by single spaces; the parts contain the name exactly three times
provided no other part equals the name, and the species exactly twice
provided no other part equals the species. -/
theorem c4_weighted_searchable_text (r : Prep.PRecord) (hn : r.name ≠ "")
    (hs : r.species ≠ "") :
    Prep.buildParts r
      = [r.name, r.name, r.name, r.species, r.species]
        ++ ((if r.activity ≠ "" then [r.activity] else [])
          ++ (if r.filename_tokens ≠ "" then [r.filename_tokens] else [])
          ++ (if r.fields ≠ "" then [r.fields] else [])
          ++ (if r.path ≠ ""
              then [⟨NEOM.joinSep [' ']
                (Prep.lastFour (Prep.meaningfulSegments r.path))⟩]
              else [])) ∧
    Prep.build_searchable_text r
      = ⟨NEOM.joinSep [' '] ((Prep.buildParts r).map String.data)⟩ ∧
    (r.species ≠ r.name →
      r.name ∉ ((if r.activity ≠ "" then [r.activity] else [])
          ++ (if r.filename_tokens ≠ "" then [r.filename_tokens] else [])
          ++ (if r.fields ≠ "" then [r.fields] else [])
          ++ (if r.path ≠ ""
              then [⟨NEOM.joinSep [' ']
                (Prep.lastFour (Prep.meaningfulSegments r.path))⟩]
              else [])) →
      (Prep.buildParts r).count r.name = 3) ∧
    (r.species ≠ r.name →
      r.species ∉ ((if r.activity ≠ "" then [r.activity] else [])
          ++ (if r.filename_tokens ≠ "" then [r.filename_tokens] else [])
          ++ (if r.fields ≠ "" then [r.fields] else [])
          ++ (if r.path ≠ ""
              then [⟨NEOM.joinSep [' ']
                (Prep.lastFour (Prep.meaningfulSegments r.path))⟩]
              else [])) →
      (Prep.buildParts r).count r.species = 2) := by
  have hbp : Prep.buildParts r
      = [r.name, r.name, r.name, r.species, r.species]
        ++ ((if r.activity ≠ "" then [r.activity] else [])
          ++ (if r.filename_tokens ≠ "" then [r.filename_tokens] else [])
          ++ (if r.fields ≠ "" then [r.fields] else [])
          ++ (if r.path ≠ ""
              then [⟨NEOM.joinSep [' ']
                (Prep.lastFour (Prep.meaningfulSegments r.path))⟩]
              else [])) := by
    unfold Prep.buildParts
    rw [if_pos hn, if_pos hs]
    simp [List.append_assoc]
  refine ⟨hbp, rfl, ?_, ?_⟩
  · intro hsn htail
    rw [hbp, List.count_append]
    have h1 : ([r.name, r.name, r.name, r.species, r.species]).count r.name
        = 3 := by
      simp [List.count_cons, beq_eq_false_iff_ne.mpr hsn]
    rw [h1, List.count_eq_zero.mpr htail]
  · intro hsn htail
    rw [hbp, List.count_append]
    have h1 : ([r.name, r.name, r.name, r.species, r.species]).count r.species
        = 2 := by
      have : (r.name == r.species) = false :=
        beq_eq_false_iff_ne.mpr (fun h => hsn h.symm)
      simp [List.count_cons, this]
    rw [h1, List.count_eq_zero.mpr htail]

/-- Witness for C4 (amended): a fully populated record. The tail parts are
the activity, tokens, fields and the last path segments, and the name and
species counts are exactly three and two. -/
theorem c4_weighted_searchable_text_witness :
    (Prep.build_searchable_text
      { name := "n", species := "sp", activity := "act",
        filename_tokens := "tok", fields := "f1 f2",
        path := "E:\\x\\.hid\\data\\file.csv" }
      = "n n n sp sp act tok f1 f2 x data file.csv") ∧
    (Prep.buildParts
      { name := "n", species := "sp", activity := "act",
        filename_tokens := "tok", fields := "f1 f2",
        path := "E:\\x\\.hid\\data\\file.csv" }).count "n" = 3 ∧
    (Prep.buildParts
      { name := "n", species := "sp", activity := "act",
        filename_tokens := "tok", fields := "f1 f2",
        path := "E:\\x\\.hid\\data\\file.csv" }).count "sp" = 2 := by
  have h := c4_weighted_searchable_text
    { name := "n", species := "sp", activity := "act",
      filename_tokens := "tok", fields := "f1 f2",
      path := "E:\\x\\.hid\\data\\file.csv" } (by decide) (by decide)
  refine ⟨by decide, ?_, ?_⟩
  · exact h.2.2.1 (by decide) (by decide)
  · exact h.2.2.2 (by decide) (by decide)

/-- C9 counterexample: the v2 index build (`build_index.py`) writes records
into `search_index.json` that do carry a `searchable_text` entry (the query
service then reads it back for regex filtering). -/
theorem c9_v2_record_carries_searchable_text :
    (V2.buildIndex (fun _ => (0 : Int))
        [⟨"p", "f.csv", "csv", "success", "", []⟩]).records
      = [V2.mkRecord ⟨"p", "f.csv", "csv", "success", "", []⟩] ∧
    "searchable_text"
      ∈ (V2.mkRecord ⟨"p", "f.csv", "csv", "success", "", []⟩).map Prod.fst := by
  exact ⟨rfl, by decide⟩

/-- C9 (amended): the `prepare_index.py` records artifact strips the
`searchable_text` entry from every persisted record, while the v2
`build_index.py` records artifact keeps a `searchable_text` entry on every
record it writes. -/
theorem c9_persisted_searchable_text (α : Type)
    (rs : List (List (String × α))) :
    (∀ r ∈ Prep.persistRecords rs, "searchable_text" ∉ r.map Prod.fst) ∧
    (∀ (E : Type) (embedFn : String → E) (rows : List V2.ScanRow),
      ∀ rec ∈ (V2.buildIndex embedFn rows).records,
        "searchable_text" ∈ rec.map Prod.fst) := by
  constructor
  · intro r hr
    obtain ⟨r0, _, hfilt⟩ := List.mem_map.mp hr
    rw [← hfilt]
    intro hmem
    obtain ⟨kv, hkv, hk⟩ := List.mem_map.mp hmem
    have hne := of_decide_eq_true (List.mem_filter.mp hkv).2
    exact hne hk
  · intro E embedFn rows rec hrec
    obtain ⟨row, _, hre⟩ := List.mem_map.mp hrec
    rw [← hre]
    unfold V2.mkRecord
    simp

/-- Witness for C9 (amended): a concrete record through both builders. -/
theorem c9_persisted_searchable_text_witness :
    "searchable_text"
      ∉ (Prep.persistRecord
          [("name", "n"), ("searchable_text", "n n n"), ("path", "p")]).map
          Prod.fst ∧
    "searchable_text"
      ∈ (V2.mkRecord ⟨"p", "f.csv", "csv", "success", "", []⟩).map Prod.fst := by
  constructor
  · exact (c9_persisted_searchable_text String
        [[("name", "n"), ("searchable_text", "n n n"), ("path", "p")]]).1
      _ (by decide)
  · exact (c9_persisted_searchable_text String []).2 Int (fun _ => 0)
      [⟨"p", "f.csv", "csv", "success", "", []⟩]
      (V2.mkRecord ⟨"p", "f.csv", "csv", "success", "", []⟩) (by decide)

/-- C10: an index build keeps only rows with `status == 'success'`: the
build is unchanged by pre-filtering to success rows, every persisted record
and embedding row derives from a success row, and every filter-option value
derives from the split cell of a success row; error rows contribute
nothing. -/
theorem c10_success_rows_only (E : Type) (embedFn : String → E)
    (rows : List V2.ScanRow) :
    V2.buildIndex embedFn rows
      = V2.buildIndex embedFn
          (rows.filter (fun r => r.status == "success")) ∧
    (∀ rec ∈ (V2.buildIndex embedFn rows).records,
      ∃ row, row ∈ rows ∧ row.status = "success"
        ∧ rec = V2.mkRecord row) ∧
    (∀ pr ∈ (V2.buildIndex embedFn rows).filters, ∀ v ∈ pr.2,
      ∃ row, row ∈ rows ∧ row.status = "success"
        ∧ v.data ∈ V2.cellValues (row.cat pr.1)) ∧
    (V2.buildIndex embedFn rows).embeddings
      = (rows.filter (fun r => r.status == "success")).map
          (fun r => embedFn (V2.build_searchable_text r)) := by
  have hff : (rows.filter (fun r => r.status == "success")).filter
      (fun r => r.status == "success")
      = rows.filter (fun r => r.status == "success") := by
    rw [List.filter_filter]
    exact List.filter_congr (fun a _ => Bool.and_self _)
  refine ⟨?_, ?_, ?_, rfl⟩
  · unfold V2.buildIndex
    rw [hff]
  · intro rec hrec
    obtain ⟨row, hrow, hre⟩ := List.mem_map.mp hrec
    obtain ⟨hmem, hst⟩ := List.mem_filter.mp hrow
    exact ⟨row, hmem, beq_iff_eq.mp hst, hre.symm⟩
  · intro pr hpr v hv
    obtain ⟨c, _, hc⟩ := List.mem_map.mp hpr
    rw [← hc] at hv
    simp only at hv
    obtain ⟨s, hsm, hsv⟩ := List.mem_map.mp hv
    unfold NEOM.sortStrs at hsm
    rw [NEOM.mem_sortByLt] at hsm
    rw [List.mem_dedup] at hsm
    obtain ⟨row, hrow, hsrow⟩ := (V2.mem_foldr_append _ _ _).mp hsm
    obtain ⟨hmem, hst⟩ := List.mem_filter.mp hrow
    refine ⟨row, hmem, beq_iff_eq.mp hst, ?_⟩
    have hvd : v.data = s := by rw [← hsv]
    rw [← hc]
    simp only
    rw [hvd]
    exact hsrow

/-- Witness for C10: a two-row scan artifact with one success row and one
error row builds an index containing exactly the success row's record. -/
theorem c10_success_rows_only_witness :
    (V2.buildIndex (fun s => s.length)
        [⟨"p1", "a.csv", "csv", "success", "", [("fish", "tuna")]⟩,
         ⟨"p2", "b.csv", "csv", "error", "ERROR: x", []⟩]).records.length = 1 ∧
    (∃ row,
      row ∈ [⟨"p1", "a.csv", "csv", "success", "", [("fish", "tuna")]⟩,
             (⟨"p2", "b.csv", "csv", "error", "ERROR: x", []⟩ : V2.ScanRow)] ∧
      row.status = "success" ∧
      V2.mkRecord ⟨"p1", "a.csv", "csv", "success", "", [("fish", "tuna")]⟩
        = V2.mkRecord row) :=
  ⟨by decide,
    (c10_success_rows_only Nat (fun s => s.length)
        [⟨"p1", "a.csv", "csv", "success", "", [("fish", "tuna")]⟩,
         ⟨"p2", "b.csv", "csv", "error", "ERROR: x", []⟩]).2.1
      (V2.mkRecord ⟨"p1", "a.csv", "csv", "success", "", [("fish", "tuna")]⟩)
      (by decide)⟩

end NEOM

/-! Helper lemmas: the query engine. -/

namespace NEOM.Service

theorem pyTake_nonneg {α : Type} (k : Int) (hk : 0 ≤ k) (l : List α) :
    pyTake k l = l.take k.toNat := by
  unfold pyTake
  rw [if_pos hk]

theorem applyInclude_ok_sublist
    {engine : String → Except String (String → Bool)}
    {recs : List SRecord} {inc : Option String} {cand c : List Nat}
    (h : applyInclude engine recs inc cand = .ok c) : c.Sublist cand := by
  unfold applyInclude at h
  cases inc with
  | none =>
    cases h
    exact List.Sublist.refl _
  | some pat =>
    simp only [] at h
    by_cases hp : pat = ""
    · rw [if_pos hp] at h
      cases h
      exact List.Sublist.refl _
    · rw [if_neg hp] at h
      cases hm : engine pat with
      | error e => rw [hm] at h; simp only [] at h; cases h
      | ok m =>
        rw [hm] at h
        simp only [Except.ok.injEq] at h
        rw [← h]
        exact List.filter_sublist _

theorem applyExclude_ok_sublist
    {engine : String → Except String (String → Bool)}
    {recs : List SRecord} {exc : Option String} {cand c : List Nat}
    (h : applyExclude engine recs exc cand = .ok c) : c.Sublist cand := by
  unfold applyExclude at h
  cases exc with
  | none =>
    cases h
    exact List.Sublist.refl _
  | some pat =>
    simp only [] at h
    by_cases hp : pat = ""
    · rw [if_pos hp] at h
      cases h
      exact List.Sublist.refl _
    · rw [if_neg hp] at h
      cases hm : engine pat with
      | error e => rw [hm] at h; simp only [] at h; cases h
      | ok m =>
        rw [hm] at h
        simp only [Except.ok.injEq] at h
        rw [← h]
        exact List.filter_sublist _

theorem applyCatFilters_eq_filter (recs : List SRecord) :
    ∀ (fs : List (String × Option String)) (cand : List Nat),
      applyCatFilters recs fs cand
        = cand.filter (fun i => fs.all (fun p =>
            match p.2 with
            | some v => if v ≠ "" then passCat recs p.1 v i else true
            | none => true))
  | [], cand => by
    simp [applyCatFilters]
  | p :: fs, cand => by
    have step : applyCatFilters recs (p :: fs) cand
        = applyCatFilters recs fs
            (match p.2 with
             | some v => if v ≠ "" then cand.filter (passCat recs p.1 v)
                else cand
             | none => cand) := by
      unfold applyCatFilters
      rw [List.foldl_cons]
    rw [step, applyCatFilters_eq_filter recs fs]
    cases hp : p.2 with
    | none =>
      simp only [hp]
      refine List.filter_congr ?_
      intro a _
      simp [List.all_cons, hp]
    | some v =>
      simp only [hp]
      by_cases hv : v = ""
      · rw [if_neg (by rw [hv]; simp)]
        refine List.filter_congr ?_
        intro a _
        simp [List.all_cons, hp, hv]
      · rw [if_pos hv]
        rw [List.filter_filter]
        refine List.filter_congr ?_
        intro a _
        simp only [List.all_cons, hp]
        rw [if_pos hv]
        exact Bool.and_comm _ _

end NEOM.Service

namespace NEOM

/-- C5 counterexample: a request with `limit = -1` (accepted by the
endpoint's plain `int` parameter) returns `showing = 0` on an empty index,
but `min(limit, total_matches) = min(-1, 0) = -1`, so
`showing == min(limit, total_matches)` fails. -/
theorem c5_negative_limit_counterexample :
    Service.search (fun _ => []) (fun _ => .ok (fun _ => true))
        ⟨[], Service.categoryOrder, []⟩
        { Service.Query.base with limit := -1 }
      = .ok ⟨0, 0, []⟩ ∧
    ¬(((0 : Nat) : Int) = min (-1 : Int) ((0 : Nat) : Int)) := by
  constructor
  · rfl
  · decide

/-- C5 (amended): for every query whose `limit` is non-negative, a
successful search payload satisfies `showing = min(limit, total_matches)`
(`total_matches` counted post-filter, pre-truncation). -/
theorem c5_showing_min (embedFn : String → List Int)
    (engine : String → Except String (String → Bool))
    (idx : Service.Index) (qr : Service.Query) (p : Service.Payload)
    (hlim : 0 ≤ qr.limit)
    (hok : Service.search embedFn engine idx qr = .ok p) :
    p.showing = min qr.limit.toNat p.total_matches := by
  unfold Service.search at hok
  simp only [] at hok
  cases hinc : Service.applyInclude engine idx.records qr.incl
      (Service.applyTypeFilter idx.records qr.file_type
        (Service.applyCatFilters idx.records (Service.categoryFilters qr)
          (List.range idx.records.length))) with
  | error e => rw [hinc] at hok; simp only [] at hok; cases hok
  | ok cand3 =>
    rw [hinc] at hok
    simp only [] at hok
    cases hexc : Service.applyExclude engine idx.records qr.excl cand3 with
    | error e => rw [hexc] at hok; simp only [] at hok; cases hok
    | ok cand4 =>
      rw [hexc] at hok
      simp only [Service.SearchResult.ok.injEq] at hok
      rw [← hok]
      simp only
      rw [List.length_map, Service.pyTake_nonneg _ hlim, List.length_take]

/-- Witness for C5 (amended): a two-record index queried with limit 1. -/
theorem c5_showing_min_witness :
    0 ≤ (1 : Int) ∧
    (∃ p : Service.Payload,
      Service.search (fun _ => [1]) (fun _ => .ok (fun _ => true))
          ⟨[⟨"a.csv", "p/a.csv", "csv", "t", []⟩,
            ⟨"b.csv", "p/b.csv", "csv", "t", []⟩],
           Service.categoryOrder, [[2], [3]]⟩
          { Service.Query.base with limit := 1 }
        = .ok p ∧
      p.showing = min (1 : Int).toNat p.total_matches ∧
      p.total_matches = 2 ∧ p.showing = 1) := by
  refine ⟨by decide, ?_⟩
  refine ⟨⟨2, 1, [⟨"a.csv", "p/a.csv", "csv", none, []⟩]⟩, rfl, ?_, rfl, rfl⟩
  exact c5_showing_min (fun _ => [1]) (fun _ => .ok (fun _ => true))
    ⟨[⟨"a.csv", "p/a.csv", "csv", "t", []⟩,
      ⟨"b.csv", "p/b.csv", "csv", "t", []⟩],
     Service.categoryOrder, [[2], [3]]⟩
    { Service.Query.base with limit := 1 } _ (by decide) rfl

/-- C6: a malformed include pattern (or a malformed exclude pattern reached
after the include step) makes `search` return the structured
`{"error": msg}` payload — the `error` constructor carries no result list —
and the handler leaves the loaded index state unchanged. -/
theorem c6_invalid_regex_error (embedFn : String → List Int)
    (engine : String → Except String (String → Bool))
    (st : Service.ServerState) (qr : Service.Query) (pat e : String)
    (hmal : engine pat = .error e) (hne : pat ≠ "")
    (hcase : qr.incl = some pat ∨
      (qr.excl = some pat ∧
        (qr.incl = none ∨ qr.incl = some "" ∨
          (∃ q m, qr.incl = some q ∧ engine q = .ok m)))) :
    (∃ msg, Service.handleRequest embedFn engine st qr
        = (.error msg, st)) ∧
    (Service.handleRequest embedFn engine st qr).2 = st := by
  refine ⟨?_, rfl⟩
  unfold Service.handleRequest Service.search
  simp only []
  rcases hcase with hinc | ⟨hexc, hrest⟩
  · have harg : ∀ cand, Service.applyInclude engine st.index.records qr.incl
        cand = .error ("Include regex error: " ++ e) := by
      intro cand
      unfold Service.applyInclude
      rw [hinc]
      simp only []
      rw [if_neg hne, hmal]
    rw [harg]
    exact ⟨"Include regex error: " ++ e, rfl⟩
  · have hexcerr : ∀ cand, Service.applyExclude engine st.index.records
        qr.excl cand = .error ("Exclude regex error: " ++ e) := by
      intro cand
      unfold Service.applyExclude
      rw [hexc]
      simp only []
      rw [if_neg hne, hmal]
    rcases hrest with hrest | hrest | ⟨q, m, hq, hm⟩
    · have harg : ∀ cand, Service.applyInclude engine st.index.records
          qr.incl cand = .ok cand := by
        intro cand
        unfold Service.applyInclude
        rw [hrest]
      rw [harg]
      simp only []
      rw [hexcerr]
      exact ⟨"Exclude regex error: " ++ e, rfl⟩
    · have harg : ∀ cand, Service.applyInclude engine st.index.records
          qr.incl cand = .ok cand := by
        intro cand
        unfold Service.applyInclude
        rw [hrest]
        simp
      rw [harg]
      simp only []
      rw [hexcerr]
      exact ⟨"Exclude regex error: " ++ e, rfl⟩
    · by_cases hq0 : q = ""
      · have harg : ∀ cand, Service.applyInclude engine st.index.records
            qr.incl cand = .ok cand := by
          intro cand
          unfold Service.applyInclude
          rw [hq]
          simp only []
          rw [if_pos hq0]
        rw [harg]
        simp only []
        rw [hexcerr]
        exact ⟨"Exclude regex error: " ++ e, rfl⟩
      · have harg : ∀ cand, Service.applyInclude engine st.index.records
            qr.incl cand
            = .ok (cand.filter (fun i =>
                m (st.index.records.getD i default).searchable_text
                  || m (st.index.records.getD i default).file_path)) := by
          intro cand
          unfold Service.applyInclude
          rw [hq]
          simp only []
          rw [if_neg hq0, hm]
        rw [harg]
        simp only []
        rw [hexcerr]
        exact ⟨"Exclude regex error: " ++ e, rfl⟩

/-- Witness for C6: a concrete engine rejecting the pattern "[" while the
loaded state is a one-record index. -/
theorem c6_invalid_regex_error_witness :
    ((fun s => if s = "[" then (.error "unbalanced" :
        Except String (String → Bool)) else .ok (fun _ => true)) "[")
      = .error "unbalanced" ∧
    (∃ msg,
      Service.handleRequest (fun _ => [])
        (fun s => if s = "[" then .error "unbalanced"
          else .ok (fun _ => true))
        ⟨⟨[⟨"a.csv", "p", "csv", "t", []⟩], Service.categoryOrder, [[1]]⟩, []⟩
        { Service.Query.base with incl := some "[" }
      = (.error msg,
         ⟨⟨[⟨"a.csv", "p", "csv", "t", []⟩], Service.categoryOrder, [[1]]⟩,
          []⟩)) := by
  refine ⟨rfl, ?_⟩
  exact (c6_invalid_regex_error (fun _ => [])
    (fun s => if s = "[" then .error "unbalanced" else .ok (fun _ => true))
    ⟨⟨[⟨"a.csv", "p", "csv", "t", []⟩], Service.categoryOrder, [[1]]⟩, []⟩
    { Service.Query.base with incl := some "[" } "[" "unbalanced"
    rfl (by decide) (Or.inl rfl)).1

end NEOM

namespace NEOM.Service

theorem filter_inter_filter (l : List Nat) (p q : Nat → Bool) :
    (l.filter p).inter (l.filter q) = l.filter (fun a => p a && q a) := by
  show (l.filter p).filter (fun a => (l.filter q).elem a)
    = l.filter (fun a => p a && q a)
  rw [List.filter_filter]
  refine List.filter_congr ?_
  intro a ha
  have helem : (l.filter q).elem a = q a := by
    by_cases hq : q a = true
    · rw [hq, List.elem_iff]
      exact List.mem_filter.mpr ⟨ha, hq⟩
    · have hq' : q a = false := by simpa using hq
      rw [hq']
      rw [← Bool.not_eq_true, List.elem_iff]
      intro hmem
      exact hq (List.mem_filter.mp hmem).2
  rw [helem]
  exact Bool.and_comm _ _

theorem all_pair_split (recs : List SRecord) (i : Nat)
    (c1 v1 c2 v2 : String) (h12 : c1 ≠ c2) :
    ∀ names : List String,
      ((names.map (fun n => (n, if n = c1 then some v1
          else if n = c2 then some v2 else none))).all (fun p =>
        match p.2 with
        | some v => if v ≠ "" then passCat recs p.1 v i else true
        | none => true))
        = (((names.map (fun n => (n, if n = c1 then some v1 else none))).all
            (fun p =>
              match p.2 with
              | some v => if v ≠ "" then passCat recs p.1 v i else true
              | none => true))
          && ((names.map (fun n => (n, if n = c2 then some v2 else none))).all
            (fun p =>
              match p.2 with
              | some v => if v ≠ "" then passCat recs p.1 v i else true
              | none => true)))
  | [] => rfl
  | n :: ns => by
    simp only [List.map_cons, List.all_cons]
    rw [all_pair_split recs i c1 v1 c2 v2 h12 ns]
    by_cases h1 : n = c1
    · rw [if_pos h1, if_pos h1, if_neg (by rw [h1]; exact h12)]
      simp only []
      simp [Bool.and_assoc]
    · rw [if_neg h1, if_neg h1]
      by_cases h2 : n = c2
      · rw [if_pos h2]
        simp only []
        simp [Bool.and_assoc, Bool.and_left_comm]
      · rw [if_neg h2]
        simp only []
        simp [Bool.and_assoc]

end NEOM.Service

namespace NEOM

/-- C2: for every loaded record list and every pair of category filters on
two distinct categories, the candidate list produced by the category-filter
loop with both filters supplied equals the intersection of the candidate
lists produced with each filter alone (filters compose with logical AND). -/
theorem c2_category_filters_compose (recs : List Service.SRecord)
    (c1 v1 c2 v2 : String) (h12 : c1 ≠ c2) (cand : List Nat) :
    Service.applyCatFilters recs (Service.bothFilters c1 v1 c2 v2) cand
      = (Service.applyCatFilters recs (Service.onlyFilter c1 v1) cand).inter
          (Service.applyCatFilters recs (Service.onlyFilter c2 v2) cand) := by
  rw [Service.applyCatFilters_eq_filter, Service.applyCatFilters_eq_filter,
    Service.applyCatFilters_eq_filter, Service.filter_inter_filter]
  refine List.filter_congr ?_
  intro i _
  unfold Service.bothFilters Service.onlyFilter
  exact Service.all_pair_split recs i c1 v1 c2 v2 h12 Service.categoryOrder

/-- Witness for C2: a three-record index filtered on `marine_mammals` and
`places`; the category filters of the corresponding two-parameter query are
exactly the two-filter assignment. -/
theorem c2_category_filters_compose_witness :
    Service.categoryFilters
        { Service.Query.base with
            marine_mammals := some "dugong"
            places := some "reef" }
      = Service.bothFilters "marine_mammals" "dugong" "places" "reef" ∧
    ("marine_mammals" : String) ≠ "places" ∧
    Service.applyCatFilters
        [⟨"a", "p1", "csv", "t", [("marine_mammals", "dugong, whale")]⟩,
         ⟨"b", "p2", "csv", "t",
           [("marine_mammals", "dugong"), ("places", "reef")]⟩,
         ⟨"c", "p3", "csv", "t", [("places", "reef")]⟩]
        (Service.bothFilters "marine_mammals" "dugong" "places" "reef")
        (List.range 3)
      = (Service.applyCatFilters
          [⟨"a", "p1", "csv", "t", [("marine_mammals", "dugong, whale")]⟩,
           ⟨"b", "p2", "csv", "t",
             [("marine_mammals", "dugong"), ("places", "reef")]⟩,
           ⟨"c", "p3", "csv", "t", [("places", "reef")]⟩]
          (Service.onlyFilter "marine_mammals" "dugong")
          (List.range 3)).inter
        (Service.applyCatFilters
          [⟨"a", "p1", "csv", "t", [("marine_mammals", "dugong, whale")]⟩,
           ⟨"b", "p2", "csv", "t",
             [("marine_mammals", "dugong"), ("places", "reef")]⟩,
           ⟨"c", "p3", "csv", "t", [("places", "reef")]⟩]
          (Service.onlyFilter "places" "reef")
          (List.range 3)) :=
  ⟨by decide, by decide,
    c2_category_filters_compose
      [⟨"a", "p1", "csv", "t", [("marine_mammals", "dugong, whale")]⟩,
       ⟨"b", "p2", "csv", "t",
         [("marine_mammals", "dugong"), ("places", "reef")]⟩,
       ⟨"c", "p3", "csv", "t", [("places", "reef")]⟩]
      "marine_mammals" "dugong" "places" "reef" (by decide) (List.range 3)⟩

end NEOM

